import Mathlib

/-!
Verification of the `MessagePortMinifier` coordination layer
(`webpack/module-minifier-plugin/src/MessagePortMinifier.ts`) of the
rushstack repository.

The class owns a pending-request registry `_callbacks : Map<string,
IModuleMinificationCallback[]>`.  `minify(request, callback)` either appends
`callback` to an existing entry for `request.hash` or creates a fresh entry
`[callback]` and posts the request over the `MessagePort`.  `connect()` posts
the string literal for the handshake, awaits one inbound message as the
configuration hash, installs the inbound `handler`, and returns a connection
whose `disconnect` removes the handler and closes the port.  The `handler`
reacts only to object-shaped messages: it looks the hash up with a forced
non-null assertion, deletes the entry, and invokes every queued callback.

We embed the registry as a function map `String → Option (List Nat)` (JS
`Map` keyed by hash; callbacks are identified by `Nat` ids, and a callback
invocation is recorded as an emitted `(id, result)` pair).  Fallible code is
modelled in `Except JsError`.
-/

namespace MessagePortMinifier

/-- A minification request (`IModuleMinificationRequest`): identity hash, raw
code, optional name for the source map, optional externals list. -/
structure IModuleMinificationRequest where
  hash : String
  code : String
  nameForMap : Option String
  externals : Option (List String)
  deriving DecidableEq, Repr

/-- A minification result (`IModuleMinificationResult`): tagged union of the
success shape (`error` absent, `code` present, optional `map`) and the error
shape (`error` present).  Both carry the hash of the originating request. -/
inductive IModuleMinificationResult where
  | success (hash : String) (code : String) (map : Option String)
  | errorResult (hash : String) (error : String)
  deriving DecidableEq, Repr

/-- Correlation key carried by every result. -/
def IModuleMinificationResult.hash : IModuleMinificationResult → String
  | .success h _ _ => h
  | .errorResult h _ => h

/-- An inbound wire message (`IModuleMinificationResult | number | false`).
Only the `result` branch satisfies the handler's test
`typeof message === 'object'`. -/
inductive InboundMessage where
  | result (r : IModuleMinificationResult)
  | num (n : Int)
  | boolFalse
  deriving DecidableEq, Repr

/-- Callbacks are identified by numeric ids; the effect of invoking one is an
emitted `(id, result)` pair. -/
abbrev CallbackId := Nat

/-- The pending-request registry `_callbacks : Map<string, callback[]>`,
embedded as a function map from hash to the ordered callback queue. -/
def CallbacksMap := String → Option (List CallbackId)

/-- The registry as constructed: `new Map()`. -/
def emptyCallbacks : CallbacksMap := fun _ => none

/-- JS `Map.prototype.get`. -/
def mapGet (m : CallbacksMap) (h : String) : Option (List CallbackId) := m h

/-- JS `Map.prototype.set`. -/
def mapSet (m : CallbacksMap) (h : String) (v : List CallbackId) : CallbacksMap :=
  fun h' => if h' = h then some v else m h'

/-- JS `Map.prototype.delete`. -/
def mapDelete (m : CallbacksMap) (h : String) : CallbacksMap :=
  fun h' => if h' = h then none else m h'

/-- A JS runtime exception.  The only throw site in the embedded code is the
`for...of` over the `undefined` produced by the forced non-null lookup, which
raises a `TypeError` with a fixed message. -/
inductive JsError where
  | typeError (message : String)
  deriving DecidableEq, Repr

/-- The message of the `TypeError` Node raises when `for (const x of u)` is
executed with `u === undefined`.  It is a fixed string: it does not embed the
offending hash. -/
def undefinedNotIterableMessage : String :=
  "undefined is not iterable (cannot read property Symbol(Symbol.iterator))"

/-- Whether `needle` occurs as a contiguous subsequence of `haystack`. -/
def containsSeq (needle : List Char) : List Char → Bool
  | [] => needle.isEmpty
  | c :: rest => needle.isPrefixOf (c :: rest) || containsSeq needle rest

/-- Substring test: whether a raised error's message mentions a given hash
(the only sense in which a thrown diagnostic could identify it). -/
def errorMentionsHash (e : JsError) (h : String) : Bool :=
  match e with
  | .typeError message => containsSeq h.data message.data

/-- The body of `MessagePortMinifier.minify(request, callback)`: look up
`request.hash`; if a queue exists, push the callback and return; otherwise
store `[callback]` and post the request over the port.  Returns the updated
registry and the list of messages posted (empty or the one request). -/
def minify (request : IModuleMinificationRequest) (callback : CallbackId)
    (m : CallbacksMap) : CallbacksMap × List IModuleMinificationRequest :=
  match mapGet m request.hash with
  | some callbacks => (mapSet m request.hash (callbacks ++ [callback]), [])
  | none => (mapSet m request.hash [callback], [request])

/-- The inbound message `handler` installed by `connect`: for an
object-shaped message, fetch the queue with a forced non-null assertion,
delete the entry, and invoke every queued callback with the result; a message
delivering a result for an unregistered hash makes the `for...of` throw.
Non-object messages (`number`, `false`) fall outside the `if` and do nothing.
Returns the updated registry and the invocations performed, in order. -/
def handler (message : InboundMessage) (m : CallbacksMap) :
    Except JsError (CallbacksMap × List (CallbackId × IModuleMinificationResult)) :=
  match message with
  | .result r =>
    match mapGet m r.hash with
    | some callbacksForRequest =>
      .ok (mapDelete m r.hash, callbacksForRequest.map (fun c => (c, r)))
    | none => .error (.typeError undefinedNotIterableMessage)
  | .num _ => .ok (m, [])
  | .boolFalse => .ok (m, [])

/-- The connection state of a façade instance: the registry, whether the
inbound `handler` is attached to the port (`port.on` / `port.off`), and
whether `port.close()` has been called. -/
structure PortState where
  callbacks : CallbacksMap
  handlerAttached : Bool
  portClosed : Bool

/-- State of a freshly constructed `MessagePortMinifier`. -/
def freshPortState : PortState :=
  { callbacks := emptyCallbacks, handlerAttached := false, portClosed := false }

/-- The metadata returned by `connect` (`IMinifierConnection`), minus the
closure: the configuration hash string. -/
structure IMinifierConnection where
  configHash : String
  deriving DecidableEq, Repr

/-- The body of `connect()`: subscribe for the next inbound message, post the
handshake string, await the configuration hash, attach the `handler`, and
resolve with the connection.  `inbound` is the stream of messages the port
delivers after the handshake is posted; the first component of the return
value is the message posted, and the promise stays unresolved (`none`) until
that stream is non-empty. -/
def connect (st : PortState) (inbound : List String) :
    String × Option (IMinifierConnection × PortState) :=
  ("initialize",
    match inbound with
    | [] => none
    | configHash :: _ =>
      some (⟨configHash⟩, { st with handlerAttached := true }))

/-- The `disconnect` closure of the returned connection:
`port.off('message', handler); port.close()`. -/
def disconnect (st : PortState) : PortState :=
  { st with handlerAttached := false, portClosed := true }

/-- An external stimulus on a connected façade: a `minify` call or the port
delivering an inbound message. -/
inductive Event where
  | call (request : IModuleMinificationRequest) (callback : CallbackId)
  | deliver (message : InboundMessage)
  deriving DecidableEq, Repr

/-- One stimulus applied to the full port state.  A delivery only reaches the
`handler` while it is attached; callbacks fire only from the handler. -/
def step (st : PortState) (e : Event) :
    Except JsError
      (PortState × List IModuleMinificationRequest ×
        List (CallbackId × IModuleMinificationResult)) :=
  match e with
  | .call request callback =>
    let (m, posts) := minify request callback st.callbacks
    .ok ({ st with callbacks := m }, posts, [])
  | .deliver message =>
    if st.handlerAttached then
      match handler message st.callbacks with
      | .ok (m, invocations) => .ok ({ st with callbacks := m }, [], invocations)
      | .error e => .error e
    else
      .ok (st, [], [])

/-- Run a sequence of stimuli, accumulating posted requests and callback
invocations; an unhandled `TypeError` aborts the run. -/
def run (st : PortState) :
    List Event →
    Except JsError
      (PortState × List IModuleMinificationRequest ×
        List (CallbackId × IModuleMinificationResult))
  | [] => .ok (st, [], [])
  | e :: es =>
    match step st e with
    | .error err => .error err
    | .ok (st', posts, invocations) =>
      match run st' es with
      | .error err => .error err
      | .ok (st'', posts', invocations') =>
        .ok (st'', posts ++ posts', invocations ++ invocations')

/-- Number of requests for hash `h` among the posted messages. -/
def sentCount (h : String) (posts : List IModuleMinificationRequest) : Nat :=
  posts.countP (fun r => r.hash = h)

/-- Number of result deliveries for hash `h` in a stimulus sequence. -/
def deliveredCount (h : String) (events : List Event) : Nat :=
  events.countP (fun e =>
    match e with
    | .deliver (.result r) => r.hash = h
    | _ => false)

/-- A connected, idle façade: empty registry, handler attached by `connect`,
port open. -/
def connectedPortState : PortState :=
  { callbacks := emptyCallbacks, handlerAttached := true, portClosed := false }

/-- A primitive effect of the method bodies, at statement granularity:
mutating the registry, posting a message, invoking a callback, or throwing.
Used to reason about the order of effects inside a single call. -/
inductive Action where
  | setEntry (h : String) (callbacks : List CallbackId)
  | deleteEntry (h : String)
  | post (request : IModuleMinificationRequest)
  | invoke (callback : CallbackId) (r : IModuleMinificationResult)
  | throwErr (e : JsError)
  deriving DecidableEq, Repr

/-- Whether an action throws. -/
def Action.isThrow : Action → Bool
  | .throwErr _ => true
  | _ => false

/-- Whether an action invokes a caller-supplied callback. -/
def Action.isInvoke : Action → Bool
  | .invoke _ _ => true
  | _ => false

/-- Whether an action posts a message over the port. -/
def Action.isPost : Action → Bool
  | .post _ => true
  | _ => false

/-- The body of `minify` as its sequence of primitive effects, in source
order: the existing-entry branch performs a single `push` (a registry write);
the dispatch branch first stores the fresh entry (`this._callbacks.set`) and
only then posts the request (`this.port.postMessage`). -/
def minifySteps (request : IModuleMinificationRequest) (callback : CallbackId)
    (m : CallbacksMap) : List Action :=
  match mapGet m request.hash with
  | some callbacks => [.setEntry request.hash (callbacks ++ [callback])]
  | none => [.setEntry request.hash [callback], .post request]

/-- Effect of one action on the registry (posts, invocations and throws do
not touch it). -/
def applyAction (m : CallbacksMap) : Action → CallbacksMap
  | .setEntry h callbacks => mapSet m h callbacks
  | .deleteEntry h => mapDelete m h
  | _ => m

/-- Registry after a sequence of actions. -/
def runActions (m : CallbacksMap) (actions : List Action) : CallbacksMap :=
  actions.foldl applyAction m

/-- Sample request with hash `"a"`. -/
def reqA : IModuleMinificationRequest := ⟨"a", "x", none, none⟩

/-- Second request with the same hash `"a"` but different code. -/
def reqA2 : IModuleMinificationRequest := ⟨"a", "x-ignored", none, none⟩

/-- Third request with hash `"a"`. -/
def reqA3 : IModuleMinificationRequest := ⟨"a", "y", none, none⟩

/-- Sample successful result answering hash `"a"`. -/
def resA : IModuleMinificationResult := .success "a" "minified_x" none

/-- Connected façade holding one pending callback (id 0) for hash `"a"`. -/
def stateAfterCallA : PortState :=
  { connectedPortState with callbacks := mapSet emptyCallbacks "a" [0] }

theorem mapGet_set_self (m : CallbacksMap) (h : String) (v : List CallbackId) :
    mapGet (mapSet m h v) h = some v := by
  simp [mapGet, mapSet]

theorem mapGet_set_of_ne (m : CallbacksMap) {h h' : String} (v : List CallbackId)
    (hne : h' ≠ h) : mapGet (mapSet m h v) h' = mapGet m h' := by
  simp [mapGet, mapSet, hne]

theorem mapGet_delete_self (m : CallbacksMap) (h : String) :
    mapGet (mapDelete m h) h = none := by
  simp [mapGet, mapDelete]

theorem mapGet_delete_of_ne (m : CallbacksMap) {h h' : String} (hne : h' ≠ h) :
    mapGet (mapDelete m h) h' = mapGet m h' := by
  simp [mapGet, mapDelete, hne]

/-- C7: an inbound message that is not a structured result object — a bare
number or the boolean `false` — falls outside the handler's
`typeof message === 'object'` test, so the handler leaves the registry
completely unchanged and invokes no callbacks. -/
theorem c7_nonresult_messages_ignored (m : CallbacksMap) (msg : InboundMessage)
    (hshape : ∀ r, msg ≠ .result r) :
    handler msg m = .ok (m, []) := by
  cases msg with
  | result r => exact absurd rfl (hshape r)
  | num n => rfl
  | boolFalse => rfl

/-- Witness for C7 at the concrete non-result message `7`. -/
theorem c7_witness :
    handler (.num 7) emptyCallbacks = .ok (emptyCallbacks, []) :=
  c7_nonresult_messages_ignored emptyCallbacks (.num 7) (fun _ h => nomatch h)

/-- C9: `minify` never throws synchronously and never invokes a callback
synchronously: its effect sequence contains no throw and no invocation, it
performs at most one (non-blocking) post, and its effects on the registry
agree with `minify` itself.  Errors can therefore reach the caller only later,
as result data through the callback. -/
theorem c9_minify_no_throw_no_block (request : IModuleMinificationRequest)
    (callback : CallbackId) (m : CallbacksMap) :
    (minifySteps request callback m).countP Action.isThrow = 0 ∧
    (minifySteps request callback m).countP Action.isInvoke = 0 ∧
    (minifySteps request callback m).countP Action.isPost ≤ 1 ∧
    runActions m (minifySteps request callback m) = (minify request callback m).1 ∧
    (minify request callback m).2.length ≤ 1 := by
  cases hm : mapGet m request.hash with
  | some callbacks =>
    simp [minifySteps, minify, hm, runActions, applyAction, Action.isThrow,
      Action.isInvoke, Action.isPost, List.countP_cons]
  | none =>
    simp [minifySteps, minify, hm, runActions, applyAction, Action.isThrow,
      Action.isInvoke, Action.isPost, List.countP_cons]

/-- C10: inside `minify`, the fresh registry entry is stored strictly before
the request is posted: after every prefix of `minify`'s effect sequence that
already contains the post of the request, the registry holds an entry for
the request's hash; and no prefix contains a callback invocation. -/
theorem c10_set_before_post (request : IModuleMinificationRequest)
    (callback : CallbackId) (m : CallbacksMap) :
    (∀ k, Action.post request ∈ (minifySteps request callback m).take k →
      mapGet (runActions m ((minifySteps request callback m).take k))
        request.hash ≠ none) ∧
    (minifySteps request callback m).countP Action.isInvoke = 0 := by
  cases hm : mapGet m request.hash with
  | some callbacks =>
    refine ⟨fun k hk => ?_, by simp [minifySteps, hm, Action.isInvoke]⟩
    simp only [minifySteps, hm] at hk
    match k with
    | 0 => simp at hk
    | k + 1 => simp [List.take] at hk
  | none =>
    refine ⟨fun k hk => ?_, by simp [minifySteps, hm, Action.isInvoke]⟩
    simp only [minifySteps, hm] at hk ⊢
    match k with
    | 0 => simp at hk
    | 1 => simp [List.take] at hk
    | k + 2 =>
      simp [List.take, runActions, applyAction, mapGet_set_self]

/-- Witness for C10: the two-step effect list of a dispatching `minify`, cut
after the post, already shows the entry for `"a"`. -/
theorem c10_witness :
    mapGet (runActions emptyCallbacks ((minifySteps reqA 0 emptyCallbacks).take 2))
      reqA.hash ≠ none :=
  (c10_set_before_post reqA 0 emptyCallbacks).1 2 (by decide)

/-- C2: `connect` posts exactly the handshake control message, resolves only
once a first inbound message exists (it stays unresolved on an empty inbound
stream), and then resolves with `configHash` equal to that first inbound
message, attaching the inbound handler. -/
theorem c2_connect_handshake (st : PortState) (inbound : List String) :
    (connect st inbound).1 = "initialize" ∧
    ((connect st inbound).2 = none ↔ inbound = []) ∧
    (∀ configHash rest, inbound = configHash :: rest →
      (connect st inbound).2
        = some (⟨configHash⟩, { st with handlerAttached := true })) := by
  refine ⟨rfl, ?_, ?_⟩
  · cases inbound <;> simp [connect]
  · intro configHash rest hin
    subst hin
    rfl

/-- Witness for C2 on the inbound stream `["cfg-123"]`. -/
theorem c2_witness :
    (connect freshPortState ["cfg-123"]).1 = "initialize" ∧
    (connect freshPortState ["cfg-123"]).2
      = some (⟨"cfg-123"⟩, { freshPortState with handlerAttached := true }) :=
  ⟨(c2_connect_handshake freshPortState ["cfg-123"]).1,
    (c2_connect_handshake freshPortState ["cfg-123"]).2.2 "cfg-123" [] rfl⟩

/-- Counterexample to C3 as stated: delivering a result for the unregistered
hash `"deadbeef0123"` does make the handler throw, but the raised `TypeError`
is the fixed iteration error — its message does not mention the offending
hash, and the error value is literally identical for a different offending
hash, so no diagnostic identifies which hash offended. -/
theorem c3_counterexample :
    handler (.result (.errorResult "deadbeef0123" "boom")) emptyCallbacks
      = .error (.typeError undefinedNotIterableMessage) ∧
    errorMentionsHash (.typeError undefinedNotIterableMessage) "deadbeef0123"
      = false ∧
    handler (.result (.errorResult "deadbeef0123" "boom")) emptyCallbacks
      = handler (.result (.errorResult "f00d" "other")) emptyCallbacks := by
  refine ⟨rfl, ?_, rfl⟩
  decide

/-- C3 amended: a result for a hash with no pending entry is detected — the
forced non-null lookup makes the `for...of` throw a `TypeError`, so the
condition is never silently ignored — but the raised error is the fixed
iteration diagnostic, which does not identify the offending hash. -/
theorem c3_unknown_hash_throws (r : IModuleMinificationResult) (m : CallbacksMap)
    (habsent : mapGet m r.hash = none) :
    handler (.result r) m = .error (.typeError undefinedNotIterableMessage) := by
  simp [handler, habsent]

/-- Witness for the amended C3 at hash `"deadbeef0123"` on the empty
registry. -/
theorem c3_witness :
    mapGet emptyCallbacks
        (IModuleMinificationResult.errorResult "deadbeef0123" "boom").hash = none ∧
    handler (.result (.errorResult "deadbeef0123" "boom")) emptyCallbacks
      = .error (.typeError undefinedNotIterableMessage) :=
  ⟨rfl, c3_unknown_hash_throws (.errorResult "deadbeef0123" "boom") emptyCallbacks rfl⟩

/-- C1: two `minify` calls for the same hash issued before any response for
that hash — starting from a registry with no entry for it — post exactly one
request message (the first call's; the second posts nothing), and delivering
the response afterwards invokes each of the two registered callbacks exactly
once, both with the same result object. -/
theorem c1_dedup_single_dispatch (m : CallbacksMap)
    (req1 req2 : IModuleMinificationRequest) (cb1 cb2 : CallbackId)
    (r : IModuleMinificationResult)
    (hsame : req2.hash = req1.hash) (hres : r.hash = req1.hash)
    (habsent : mapGet m req1.hash = none) :
    (minify req1 cb1 m).2 = [req1] ∧
    (minify req2 cb2 (minify req1 cb1 m).1).2 = [] ∧
    handler (.result r) (minify req2 cb2 (minify req1 cb1 m).1).1
      = .ok (mapDelete (minify req2 cb2 (minify req1 cb1 m).1).1 req1.hash,
          [(cb1, r), (cb2, r)]) := by
  have h1 : minify req1 cb1 m = (mapSet m req1.hash [cb1], [req1]) := by
    simp [minify, habsent]
  have h2 : minify req2 cb2 (mapSet m req1.hash [cb1])
      = (mapSet (mapSet m req1.hash [cb1]) req2.hash [cb1, cb2], []) := by
    simp [minify, hsame, mapGet_set_self]
  refine ⟨by simp [h1], by simp [h1, h2], ?_⟩
  simp only [h1, h2]
  simp [handler, hres, hsame, mapGet_set_self]

/-- Witness for C1: callbacks 0 and 1 both ask for hash `"a"`; one message is
posted and the response invokes both, in order, with the same result. -/
theorem c1_witness :
    (minify reqA 0 emptyCallbacks).2 = [reqA] ∧
    (minify reqA2 1 (minify reqA 0 emptyCallbacks).1).2 = [] ∧
    handler (.result resA) (minify reqA2 1 (minify reqA 0 emptyCallbacks).1).1
      = .ok (mapDelete (minify reqA2 1 (minify reqA 0 emptyCallbacks).1).1 "a",
          [(0, resA), (1, resA)]) :=
  c1_dedup_single_dispatch emptyCallbacks reqA reqA2 0 1 resA rfl rfl rfl

/-- A sequence of `minify` calls, in order; returns the final registry and
the concatenation of the posted messages. -/
def minifyAll (reqs : List (IModuleMinificationRequest × CallbackId))
    (m : CallbacksMap) : CallbacksMap × List IModuleMinificationRequest :=
  match reqs with
  | [] => (m, [])
  | (request, callback) :: rest =>
    let (m', posts) := minify request callback m
    let (m'', posts') := minifyAll rest m'
    (m'', posts ++ posts')

/-- While an entry for `h` exists, further `minify` calls for `h` only append
their callbacks, in call order, and post nothing. -/
theorem minifyAll_appends_in_order
    (reqs : List (IModuleMinificationRequest × CallbackId)) (m : CallbacksMap)
    (h : String) (acc : List CallbackId)
    (hhash : ∀ p ∈ reqs, (p.1).hash = h) (hentry : mapGet m h = some acc) :
    mapGet (minifyAll reqs m).1 h = some (acc ++ reqs.map Prod.snd) ∧
    (minifyAll reqs m).2 = [] := by
  induction reqs generalizing m acc with
  | nil => simpa [minifyAll] using hentry
  | cons p rest ih =>
    obtain ⟨request, callback⟩ := p
    have hph : request.hash = h := hhash _ (List.mem_cons_self _ _)
    have hm : minify request callback m
        = (mapSet m request.hash (acc ++ [callback]), []) := by
      simp [minify, hph, hentry]
    have hnext : mapGet (mapSet m request.hash (acc ++ [callback])) h
        = some (acc ++ [callback]) := by
      rw [hph]; exact mapGet_set_self _ _ _
    have := ih (mapSet m request.hash (acc ++ [callback])) (acc ++ [callback])
      (fun q hq => hhash q (List.mem_cons_of_mem _ hq)) hnext
    simpa [minifyAll, hm, List.append_assoc] using this

/-- C4: callbacks registered for the same hash are invoked in registration
order (FIFO) when the response is delivered: the first caller's callback
comes first and every later caller follows in the order of their `minify`
calls. -/
theorem c4_fifo_delivery (first : IModuleMinificationRequest) (cb0 : CallbackId)
    (rest : List (IModuleMinificationRequest × CallbackId)) (m : CallbacksMap)
    (r : IModuleMinificationResult)
    (hrest : ∀ p ∈ rest, (p.1).hash = first.hash) (hres : r.hash = first.hash)
    (habsent : mapGet m first.hash = none) :
    handler (.result r) (minifyAll rest (minify first cb0 m).1).1
      = .ok (mapDelete (minifyAll rest (minify first cb0 m).1).1 first.hash,
          (cb0 :: rest.map Prod.snd).map (fun c => (c, r))) := by
  have h1 : minify first cb0 m = (mapSet m first.hash [cb0], [first]) := by
    simp [minify, habsent]
  have hentry : mapGet (mapSet m first.hash [cb0]) first.hash = some [cb0] :=
    mapGet_set_self _ _ _
  have hall := minifyAll_appends_in_order rest (mapSet m first.hash [cb0])
    first.hash [cb0] hrest hentry
  rw [h1]
  simp [handler, hres, hall.1]

/-- Witness for C4: callbacks 0, 1, 2 register for hash `"a"` in that order
and the response invokes them as `[(0, r), (1, r), (2, r)]`. -/
theorem c4_witness :
    handler (.result resA)
        (minifyAll [(reqA2, 1), (reqA3, 2)] (minify reqA 0 emptyCallbacks).1).1
      = .ok (mapDelete
            (minifyAll [(reqA2, 1), (reqA3, 2)] (minify reqA 0 emptyCallbacks).1).1
            "a",
          [(0, resA), (1, resA), (2, resA)]) :=
  c4_fifo_delivery reqA 0 [(reqA2, 1), (reqA3, 2)] emptyCallbacks resA
    (by decide) rfl rfl

/-- C5: once the handler has delivered a result for a hash, the registry
holds nothing for that hash, and a subsequent `minify` call for it creates a
fresh one-callback entry and posts a new request message. -/
theorem c5_clean_removal (m : CallbacksMap) (r : IModuleMinificationResult)
    (m' : CallbacksMap) (invocations : List (CallbackId × IModuleMinificationResult))
    (hok : handler (.result r) m = .ok (m', invocations)) :
    mapGet m' r.hash = none ∧
    ∀ (request : IModuleMinificationRequest) (callback : CallbackId),
      request.hash = r.hash →
      minify request callback m' = (mapSet m' request.hash [callback], [request]) := by
  cases hget : mapGet m r.hash with
  | none => simp [handler, hget] at hok
  | some callbacksForRequest =>
    have hm' : m' = mapDelete m r.hash := by
      simp [handler, hget] at hok
      exact hok.1.symm
    subst hm'
    refine ⟨mapGet_delete_self _ _, ?_⟩
    intro request callback hhash
    have : mapGet (mapDelete m r.hash) request.hash = none := by
      rw [hhash]; exact mapGet_delete_self _ _
    simp [minify, this]

/-- Witness for C5: after the response for `"a"` is delivered, a fresh
`minify` for `"a"` re-dispatches. -/
theorem c5_witness :
    mapGet (mapDelete (mapSet emptyCallbacks "a" [0]) "a") resA.hash = none ∧
    minify reqA2 1 (mapDelete (mapSet emptyCallbacks "a" [0]) "a")
      = (mapSet (mapDelete (mapSet emptyCallbacks "a" [0]) "a") "a" [1], [reqA2]) :=
  have h := c5_clean_removal (mapSet emptyCallbacks "a" [0]) resA
    (mapDelete (mapSet emptyCallbacks "a" [0]) "a") [(0, resA)] rfl
  ⟨h.1, h.2 reqA2 1 rfl⟩

/-- Counting invariant tying the registry to the observable traffic: a hash
with a pending entry has a non-empty queue and one more dispatched request
than delivered responses; a hash with no entry has equally many. -/
def RegistryCountInv (st : PortState) (sent resolved : String → Nat) : Prop :=
  ∀ h, (∀ cbs, mapGet st.callbacks h = some cbs →
        cbs ≠ [] ∧ sent h = resolved h + 1) ∧
    (mapGet st.callbacks h = none → sent h = resolved h)

/-- The invariant only depends on the pointwise values of the counters. -/
theorem registryCountInv_congr {st : PortState} {S D S' D' : String → Nat}
    (hinv : RegistryCountInv st S D) (hS : ∀ h, S h = S' h) (hD : ∀ h, D h = D' h) :
    RegistryCountInv st S' D' := by
  intro h
  obtain ⟨hsome, hnone⟩ := hinv h
  refine ⟨fun cbs hc => ?_, fun hc => ?_⟩
  · have := hsome cbs hc
    rw [← hS h, ← hD h]
    exact this
  · rw [← hS h, ← hD h]
    exact hnone hc

theorem sentCount_single (h : String) (request : IModuleMinificationRequest) :
    sentCount h [request] = if request.hash = h then 1 else 0 := by
  by_cases hr : request.hash = h <;> simp [sentCount, List.countP_cons, hr]

theorem deliveredCount_result_single (h : String) (r : IModuleMinificationResult) :
    deliveredCount h [.deliver (.result r)] = if r.hash = h then 1 else 0 := by
  by_cases hr : r.hash = h <;> simp [deliveredCount, List.countP_cons, hr]

/-- One stimulus preserves the counting invariant (with the counters advanced
by the step's own traffic) and keeps the handler attached. -/
theorem step_preserves_inv (st : PortState) (e : Event) (st' : PortState)
    (posts : List IModuleMinificationRequest)
    (invocations : List (CallbackId × IModuleMinificationResult))
    (sent resolved : String → Nat)
    (hattached : st.handlerAttached = true)
    (hinv : RegistryCountInv st sent resolved)
    (hstep : step st e = .ok (st', posts, invocations)) :
    st'.handlerAttached = true ∧
    RegistryCountInv st' (fun h => sent h + sentCount h posts)
      (fun h => resolved h + deliveredCount h [e]) := by
  cases e with
  | call request callback =>
    cases hm : mapGet st.callbacks request.hash with
    | some cbs =>
      simp [step, minify, hm] at hstep
      obtain ⟨hst', hposts, hinvs⟩ := hstep
      subst hst' hposts hinvs
      refine ⟨hattached, fun h => ?_⟩
      obtain ⟨hsome, hnone⟩ := hinv h
      by_cases hh : h = request.hash
      · subst hh
        refine ⟨fun cbs' hc => ?_, fun hc => ?_⟩
        · rw [mapGet_set_self] at hc
          obtain ⟨hne, hcnt⟩ := hsome cbs hm
          cases hc
          simp [sentCount, deliveredCount, hcnt]
        · rw [mapGet_set_self] at hc
          cases hc
      · refine ⟨fun cbs' hc => ?_, fun hc => ?_⟩
        · rw [mapGet_set_of_ne _ _ hh] at hc
          have := hsome cbs' hc
          simpa [sentCount, deliveredCount] using this
        · rw [mapGet_set_of_ne _ _ hh] at hc
          have := hnone hc
          simpa [sentCount, deliveredCount] using this
    | none =>
      simp [step, minify, hm] at hstep
      obtain ⟨hst', hposts, hinvs⟩ := hstep
      subst hst' hposts hinvs
      refine ⟨hattached, fun h => ?_⟩
      obtain ⟨hsome, hnone⟩ := hinv h
      by_cases hh : h = request.hash
      · subst hh
        refine ⟨fun cbs' hc => ?_, fun hc => ?_⟩
        · rw [mapGet_set_self] at hc
          cases hc
          have := hnone hm
          simp [sentCount_single, deliveredCount, this]
        · rw [mapGet_set_self] at hc
          cases hc
      · refine ⟨fun cbs' hc => ?_, fun hc => ?_⟩
        · rw [mapGet_set_of_ne _ _ hh] at hc
          have := hsome cbs' hc
          have hno : request.hash ≠ h := fun hx => hh hx.symm
          simpa [sentCount_single, deliveredCount, hno] using this
        · rw [mapGet_set_of_ne _ _ hh] at hc
          have := hnone hc
          have hno : request.hash ≠ h := fun hx => hh hx.symm
          simpa [sentCount_single, deliveredCount, hno] using this
  | deliver message =>
    cases message with
    | result r =>
      cases hm : mapGet st.callbacks r.hash with
      | none => simp [step, hattached, handler, hm] at hstep
      | some cbs =>
        simp [step, hattached, handler, hm] at hstep
        obtain ⟨hst', hposts, hinvs⟩ := hstep
        subst hst' hposts hinvs
        refine ⟨rfl, fun h => ?_⟩
        obtain ⟨hsome, hnone⟩ := hinv h
        by_cases hh : h = r.hash
        · subst hh
          refine ⟨fun cbs' hc => ?_, fun hc => ?_⟩
          · rw [mapGet_delete_self] at hc
            cases hc
          · obtain ⟨hne, hcnt⟩ := hsome cbs hm
            simp [sentCount, deliveredCount_result_single, hcnt]
        · refine ⟨fun cbs' hc => ?_, fun hc => ?_⟩
          · rw [mapGet_delete_of_ne _ hh] at hc
            have := hsome cbs' hc
            have hno : r.hash ≠ h := fun hx => hh hx.symm
            simpa [sentCount, deliveredCount_result_single, hno] using this
          · rw [mapGet_delete_of_ne _ hh] at hc
            have := hnone hc
            have hno : r.hash ≠ h := fun hx => hh hx.symm
            simpa [sentCount, deliveredCount_result_single, hno] using this
    | num n =>
      simp [step, hattached, handler] at hstep
      obtain ⟨hst', hposts, hinvs⟩ := hstep
      subst hst' hposts hinvs
      exact ⟨rfl, registryCountInv_congr hinv
        (fun h => by simp [sentCount]) (fun h => by simp [deliveredCount])⟩
    | boolFalse =>
      simp [step, hattached, handler] at hstep
      obtain ⟨hst', hposts, hinvs⟩ := hstep
      subst hst' hposts hinvs
      exact ⟨rfl, registryCountInv_congr hinv
        (fun h => by simp [sentCount]) (fun h => by simp [deliveredCount])⟩

/-- Running any stimulus sequence preserves the counting invariant, with the
counters advanced by the accumulated traffic. -/
theorem run_preserves_inv (events : List Event) (st : PortState)
    (sent resolved : String → Nat) (st' : PortState)
    (posts : List IModuleMinificationRequest)
    (invocations : List (CallbackId × IModuleMinificationResult))
    (hattached : st.handlerAttached = true)
    (hinv : RegistryCountInv st sent resolved)
    (hrun : run st events = .ok (st', posts, invocations)) :
    st'.handlerAttached = true ∧
    RegistryCountInv st' (fun h => sent h + sentCount h posts)
      (fun h => resolved h + deliveredCount h events) := by
  induction events generalizing st sent resolved posts invocations with
  | nil =>
    simp [run] at hrun
    obtain ⟨hst', hposts, hinvs⟩ := hrun
    subst hst' hposts hinvs
    exact ⟨hattached, registryCountInv_congr hinv
      (fun h => by simp [sentCount]) (fun h => by simp [deliveredCount])⟩
  | cons e es ih =>
    rw [run] at hrun
    cases hstep : step st e with
    | error err => simp [hstep] at hrun
    | ok out =>
      obtain ⟨st1, posts1, invs1⟩ := out
      cases hrest : run st1 es with
      | error err => simp [hstep, hrest] at hrun
      | ok out2 =>
        obtain ⟨st2, posts2, invs2⟩ := out2
        simp [hstep, hrest] at hrun
        obtain ⟨hst', hposts, hinvs⟩ := hrun
        subst hst' hposts hinvs
        have h1 := step_preserves_inv st e st1 posts1 invs1 sent resolved
          hattached hinv hstep
        have h2 := ih st1 (fun h => sent h + sentCount h posts1)
          (fun h => resolved h + deliveredCount h [e]) posts2 invs2 h1.1 h1.2 hrest
        refine ⟨h2.1, registryCountInv_congr h2.2 (fun h => ?_) (fun h => ?_)⟩
        · simp [sentCount, List.countP_append]
          omega
        · have hsplit : deliveredCount h (e :: es)
              = deliveredCount h [e] + deliveredCount h es := by
            simp [deliveredCount, List.countP_cons]
            omega
          beta_reduce
          omega

/-- C6: under every stimulus sequence on a connected façade, the registry
satisfies: an entry exists for a hash exactly when one more request for it
has been posted than responses delivered (dispatched but unresolved), every
existing entry holds at least one callback, and every successful response
delivery finds the entry present, removes it, and invokes exactly its queued
callbacks at that moment. -/
theorem c6_registry_invariant (events : List Event) (st' : PortState)
    (posts : List IModuleMinificationRequest)
    (invocations : List (CallbackId × IModuleMinificationResult))
    (hrun : run connectedPortState events = .ok (st', posts, invocations)) :
    (∀ h,
      (mapGet st'.callbacks h ≠ none ↔
        sentCount h posts = deliveredCount h events + 1) ∧
      (mapGet st'.callbacks h = none ↔
        sentCount h posts = deliveredCount h events) ∧
      (∀ cbs, mapGet st'.callbacks h = some cbs → cbs ≠ [])) ∧
    (∀ (stp : PortState) (r : IModuleMinificationResult) (st2 : PortState)
        (posts2 : List IModuleMinificationRequest)
        (invs2 : List (CallbackId × IModuleMinificationResult)),
      stp.handlerAttached = true →
      step stp (.deliver (.result r)) = .ok (st2, posts2, invs2) →
      mapGet stp.callbacks r.hash ≠ none ∧
      mapGet st2.callbacks r.hash = none ∧
      ∀ cbs, mapGet stp.callbacks r.hash = some cbs →
        invs2 = cbs.map (fun c => (c, r))) := by
  have hbase : RegistryCountInv connectedPortState (fun _ => 0) (fun _ => 0) := by
    intro h
    constructor
    · intro cbs hc
      simp [connectedPortState, emptyCallbacks, mapGet] at hc
    · intro _
      rfl
  have hmain := run_preserves_inv events connectedPortState (fun _ => 0)
    (fun _ => 0) st' posts invocations rfl hbase hrun
  have hm2 : RegistryCountInv st' (fun h => sentCount h posts)
      (fun h => deliveredCount h events) :=
    registryCountInv_congr hmain.2 (fun h => by simp) (fun h => by simp)
  constructor
  · intro h
    obtain ⟨hsome, hnone⟩ := hm2 h
    beta_reduce at hsome hnone
    refine ⟨⟨fun hne => ?_, fun hcount hc => ?_⟩, ⟨fun hc => ?_, fun hcount => ?_⟩,
      fun cbs hc => (hsome cbs hc).1⟩
    · cases hget : mapGet st'.callbacks h with
      | none => exact absurd hget hne
      | some cbs =>
        have := (hsome cbs hget).2
        omega
    · have := hnone hc
      omega
    · have := hnone hc
      omega
    · cases hget : mapGet st'.callbacks h with
      | none => rfl
      | some cbs =>
        have := (hsome cbs hget).2
        omega
  · intro stp r st2 posts2 invs2 hatt hstep
    cases hget : mapGet stp.callbacks r.hash with
    | none => simp [step, hatt, handler, hget] at hstep
    | some cbs =>
      simp [step, hatt, handler, hget] at hstep
      obtain ⟨hst2, hposts2, hinvs2⟩ := hstep
      subst hst2 hposts2 hinvs2
      refine ⟨by simp, mapGet_delete_self _ _, ?_⟩
      intro cbs' hc
      cases hc
      rfl

/-- Witness for C6: after the single `minify` call for hash `"a"`, one
request for `"a"` has been posted and none delivered. -/
theorem c6_witness :
    sentCount "a" [reqA] = deliveredCount "a" [Event.call reqA 0] + 1 :=
  ((c6_registry_invariant [Event.call reqA 0] stateAfterCallA [reqA] [] rfl).1
      "a").1.mp (by decide)

/-- With the handler detached, a single stimulus invokes no callback, keeps
the handler detached and the closed flag unchanged, and — unless it is a
`minify` call — leaves the registry untouched. -/
theorem step_detached (st : PortState) (e : Event) (st1 : PortState)
    (posts1 : List IModuleMinificationRequest)
    (invs1 : List (CallbackId × IModuleMinificationResult))
    (hdetached : st.handlerAttached = false)
    (hstep : step st e = .ok (st1, posts1, invs1)) :
    invs1 = [] ∧ st1.handlerAttached = false ∧ st1.portClosed = st.portClosed ∧
    ((∀ request callback, e ≠ .call request callback) →
      st1.callbacks = st.callbacks) := by
  cases e with
  | call request callback =>
    simp [step] at hstep
    obtain ⟨h1, h2, h3⟩ := hstep
    subst h1 h2 h3
    exact ⟨rfl, hdetached, rfl, fun hno => absurd rfl (hno request callback)⟩
  | deliver message =>
    simp [step, hdetached] at hstep
    obtain ⟨h1, h2, h3⟩ := hstep
    subst h1 h2 h3
    exact ⟨rfl, hdetached, rfl, fun _ => rfl⟩

/-- With the handler detached, no stimulus sequence ever invokes a callback,
the handler stays detached, the closed flag is preserved, and call-free
sequences leave the registry untouched. -/
theorem run_detached_silent (events : List Event) (st : PortState)
    (hdetached : st.handlerAttached = false) :
    ∀ st' posts invocations, run st events = .ok (st', posts, invocations) →
      invocations = [] ∧ st'.handlerAttached = false ∧
      st'.portClosed = st.portClosed ∧
      ((∀ e ∈ events, ∀ request callback, e ≠ .call request callback) →
        st'.callbacks = st.callbacks) := by
  induction events generalizing st with
  | nil =>
    intro st' posts invocations hrun
    simp [run] at hrun
    obtain ⟨hst', hposts, hinvs⟩ := hrun
    subst hst' hposts hinvs
    exact ⟨rfl, hdetached, rfl, fun _ => rfl⟩
  | cons e es ih =>
    intro st' posts invocations hrun
    rw [run] at hrun
    cases hstep : step st e with
    | error err => simp [hstep] at hrun
    | ok out =>
      obtain ⟨st1, posts1, invs1⟩ := out
      cases hrest : run st1 es with
      | error err => simp [hstep, hrest] at hrun
      | ok out2 =>
        obtain ⟨st2, posts2, invs2⟩ := out2
        simp [hstep, hrest] at hrun
        obtain ⟨hst', hposts, hinvs⟩ := hrun
        subst hst' hposts hinvs
        have hstepf := step_detached st e st1 posts1 invs1 hdetached hstep
        have hrec := ih st1 hstepf.2.1 st2 posts2 invs2 hrest
        refine ⟨by simp [hstepf.1, hrec.1], hrec.2.1,
          by rw [hrec.2.2.1, hstepf.2.2.1], fun hno => ?_⟩
        rw [hrec.2.2.2 (fun e2 he2 => hno e2 (List.mem_cons_of_mem _ he2)),
          hstepf.2.2.2 (fun request callback =>
            hno e (List.mem_cons_self _ _) request callback)]

/-- C8: `disconnect` detaches the inbound handler and closes the port; from
then on no inbound delivery is routed to the registry, no callback — in
particular none that was still pending at disconnect time — is ever invoked,
and call-free stimulus sequences leave the registry exactly as it was. -/
theorem c8_teardown (st : PortState) (events : List Event) :
    (disconnect st).portClosed = true ∧
    (disconnect st).handlerAttached = false ∧
    (disconnect st).callbacks = st.callbacks ∧
    ∀ st' posts invocations,
      run (disconnect st) events = .ok (st', posts, invocations) →
      invocations = [] ∧ st'.handlerAttached = false ∧ st'.portClosed = true ∧
      ((∀ e ∈ events, ∀ request callback, e ≠ .call request callback) →
        st'.callbacks = st.callbacks) := by
  refine ⟨rfl, rfl, rfl, fun st' posts invocations hrun => ?_⟩
  have := run_detached_silent events (disconnect st) rfl st' posts invocations hrun
  exact ⟨this.1, this.2.1, this.2.2.1, this.2.2.2⟩

/-- Witness for C8: with callback 0 still pending for `"a"`, disconnecting
and then delivering the response for `"a"` closes the port, keeps the
handler detached, and leaves the registry untouched (so the pending callback
is never invoked). -/
theorem c8_witness :
    (disconnect stateAfterCallA).portClosed = true ∧
    (disconnect stateAfterCallA).handlerAttached = false ∧
    (disconnect stateAfterCallA).callbacks = stateAfterCallA.callbacks :=
  have h := c8_teardown stateAfterCallA [Event.deliver (.result resA)]
  have h4 := h.2.2.2 (disconnect stateAfterCallA) [] [] rfl
  ⟨h.1, h4.2.1, h4.2.2.2 (fun e he request callback => by
    rcases List.mem_singleton.mp he with rfl
    exact fun hx => nomatch hx)⟩

end MessagePortMinifier
